import Mathlib

set_option maxRecDepth 4096

/-!
Verification of `script/generate-topic-list-extension.py`.

The script builds a fixed ASN.1 structure — a SEQUENCE holding three
topic-name UTF8Strings, each followed by a one-element SEQUENCE wrapping a
label UTF8String — encodes it with the pyasn1 DER encoder, and prints the
bytes as lowercase hexadecimal.

The embedding below models bytes as `Nat` (each < 256), the ASN.1 values as
the inductive `Element`, the DER encoder (`derEncode`) as pyasn1's encoder
behaves on UTF8String (tag 0x0c, primitive) and SEQUENCE (tag 0x30,
constructed) with definite lengths (short form below 128, long form above),
and the printing step (`hexLine`, `programOutput`).  A standard DER decoder
(`derDecode`) and a hex decoder (`hexDecode`) are embedded to state the
round-trip properties.
-/

/-- UTF-8 encoding of a Unicode code point, as a list of byte values. -/
def utf8EncodeCharNat (c : Nat) : List Nat :=
  if c < 0x80 then [c]
  else if c < 0x800 then
    [0xc0 + c / 64, 0x80 + c % 64]
  else if c < 0x10000 then
    [0xe0 + c / 4096, 0x80 + c / 64 % 64, 0x80 + c % 64]
  else
    [0xf0 + c / 262144, 0x80 + c / 4096 % 64, 0x80 + c / 64 % 64, 0x80 + c % 64]

/-- The UTF-8 byte sequence of a string. -/
def utf8Bytes (s : String) : List Nat :=
  (s.data.map (fun c => utf8EncodeCharNat c.toNat)).flatten

/-- Big-endian base-256 digits of `n` (empty for `0`); the first argument is
recursion fuel, always called with fuel `≥ n`. -/
def beBytesAux : Nat → Nat → List Nat
  | 0, _ => []
  | fuel + 1, n => if n = 0 then [] else beBytesAux fuel (n / 256) ++ [n % 256]

/-- Big-endian base-256 digits of `n`, with no leading zero digit. -/
def beBytes (n : Nat) : List Nat := beBytesAux n n

/-- DER definite-length octets for a content length `n`: the short form
(single octet) when `n < 128`, otherwise the long form (`0x80 + k` followed
by the `k` big-endian base-256 digits of `n`). -/
def derLen (n : Nat) : List Nat :=
  if n < 128 then [n] else (128 + (beBytes n).length) :: beBytes n

/-- An ASN.1 value of the two kinds the script uses: a UTF8String or a
SEQUENCE of values. -/
inductive Element where
  | utf8String (s : String)
  | sequence (elems : List Element)

mutual

/-- DER encoding of a value: tag octet, definite-length octets, content.
UTF8String has tag `0x0c` with the UTF-8 bytes as content; SEQUENCE has tag
`0x30` with the concatenated encodings of its components as content. -/
def derEncode : Element → List Nat
  | .utf8String s => 0x0c :: derLen (utf8Bytes s).length ++ utf8Bytes s
  | .sequence es => 0x30 :: derLen (derEncodeList es).length ++ derEncodeList es

/-- Concatenated DER encodings of a list of values, in order. -/
def derEncodeList : List Element → List Nat
  | [] => []
  | e :: es => derEncode e ++ derEncodeList es

end

/-- The six components of the outer sequence, exactly as the script assigns
`topics[0]` through `topics[5]`. -/
def topicsChildren : List Element :=
  [ .utf8String "com.relayrides.pushy",
    .sequence [.utf8String "app"],
    .utf8String "com.relayrides.pushy.voip",
    .sequence [.utf8String "voip"],
    .utf8String "com.relayrides.pushy.complication",
    .sequence [.utf8String "complication"] ]

/-- The value the script builds: `topics = univ.Sequence()` with the six
components above. -/
def topics : Element := .sequence topicsChildren

/-- Lowercase hexadecimal digit for a value below 16. -/
def hexDigitChar (n : Nat) : Char :=
  if n < 10 then Char.ofNat (48 + n) else Char.ofNat (87 + n)

/-- Two lowercase hex characters for one byte, high nibble first: the
`byte.encode("hex")` step of the script. -/
def byteHex (b : Nat) : List Char :=
  [hexDigitChar (b / 16 % 16), hexDigitChar (b % 16)]

/-- Lowercase hex rendering of a byte list, two characters per byte. -/
def hexOfBytes (bs : List Nat) : String :=
  ⟨(bs.map byteHex).flatten⟩

/-- The line of text the script prints: the hex rendering of the DER
encoding of `topics`. -/
def hexLine : String := hexOfBytes (derEncode topics)

/-- Everything the script writes to standard output: the hex line followed
by the single newline the Python 2 print statement appends. -/
def programOutput : String := hexLine ++ "\n"

/-- The run environment a process could observe: command-line arguments,
environment variables, and bytes available on standard input.  The script
reads none of them. -/
structure RunEnv where
  args : List String
  env : List (String × String)
  stdin : List Nat

/-- One run of the script in a given environment.  The script consults
nothing in the environment, so the output is `programOutput` regardless. -/
def run (_ : RunEnv) : String := programOutput

/-- A decoded ASN.1 value, with UTF8String content kept as raw bytes so that
round-trip statements compare byte-for-byte. -/
inductive RawElement where
  | utf8 (bytes : List Nat)
  | seq (elems : List RawElement)

/-- Parse a DER definite-length field: a single octet below 128 (short
form), or `0x80 + k` followed by `k` big-endian digits (long form).  The
octet `0x80` alone marks an indefinite length and is rejected, as DER
forbids it.  Returns the length and the remaining bytes. -/
def parseLen : List Nat → Option (Nat × List Nat)
  | [] => none
  | b :: rest =>
    if b < 128 then some (b, rest)
    else if b = 128 then none
    else
      let k := b - 128
      if k ≤ rest.length then
        some ((rest.take k).foldl (fun a d => 256 * a + d) 0, rest.drop k)
      else none

mutual

/-- Parse one DER element (tag, definite length, content) from the front of
a byte list, returning it with the unconsumed tail.  Only the two tags the
script emits are understood: `0x0c` (UTF8String) and `0x30` (SEQUENCE).
The first argument is recursion fuel. -/
def parseElem : Nat → List Nat → Option (RawElement × List Nat)
  | 0, _ => none
  | _ + 1, [] => none
  | fuel + 1, tag :: bs =>
    match parseLen bs with
    | none => none
    | some (len, rest) =>
      if len ≤ rest.length then
        if tag = 0x0c then some (.utf8 (rest.take len), rest.drop len)
        else if tag = 0x30 then
          match parseSeqElems fuel (rest.take len) with
          | some es => some (.seq es, rest.drop len)
          | none => none
        else none
      else none

/-- Parse a whole byte list as consecutive DER elements, failing unless the
list is consumed exactly. -/
def parseSeqElems : Nat → List Nat → Option (List RawElement)
  | 0, _ => none
  | _ + 1, [] => some []
  | fuel + 1, b :: bs =>
    match parseElem fuel (b :: bs) with
    | some (e, rest) =>
      match parseSeqElems fuel rest with
      | some es => some (e :: es)
      | none => none
    | none => none

end

/-- Decode a byte list as a single complete DER element, rejecting trailing
bytes. -/
def derDecode (bs : List Nat) : Option RawElement :=
  match parseElem (bs.length + 1) bs with
  | some (e, []) => some e
  | _ => none

/-- Value of one hexadecimal character, lowercase or uppercase. -/
def hexDigitVal (c : Char) : Option Nat :=
  if 48 ≤ c.toNat ∧ c.toNat ≤ 57 then some (c.toNat - 48)
  else if 97 ≤ c.toNat ∧ c.toNat ≤ 102 then some (c.toNat - 87)
  else if 65 ≤ c.toNat ∧ c.toNat ≤ 70 then some (c.toNat - 55)
  else none

/-- Decode a list of hex characters, two per byte, high nibble first. -/
def hexDecodeChars : List Char → Option (List Nat)
  | [] => some []
  | [_] => none
  | a :: b :: rest =>
    match hexDigitVal a, hexDigitVal b, hexDecodeChars rest with
    | some x, some y, some r => some ((16 * x + y) :: r)
    | _, _, _ => none

/-- Decode a hex string into the byte list it renders. -/
def hexDecode (s : String) : Option (List Nat) :=
  hexDecodeChars s.data

/-- Whether a character is a lowercase hexadecimal digit. -/
def isLowerHexDigit (c : Char) : Bool :=
  (48 ≤ c.toNat ∧ c.toNat ≤ 57) ∨ (97 ≤ c.toNat ∧ c.toNat ≤ 102)

mutual

/-- All content lengths appearing in the DER encoding of a value, outermost
first: exactly the values whose `derLen` octets are the length fields of the
encoding. -/
def lenFields : Element → List Nat
  | .utf8String s => [(utf8Bytes s).length]
  | .sequence es => (derEncodeList es).length :: lenFieldsList es

/-- Content lengths of a list of values, in order. -/
def lenFieldsList : List Element → List Nat
  | [] => []
  | e :: es => lenFields e ++ lenFieldsList es

end

/-- The structure §4 of the specification describes: a SEQUENCE containing,
in order, UTF8String("com.relayrides.pushy"), SEQUENCE of
UTF8String("app"), UTF8String("com.relayrides.pushy.voip"), SEQUENCE of
UTF8String("voip"), UTF8String("com.relayrides.pushy.complication"),
SEQUENCE of UTF8String("complication"). -/
def specStructure : Element :=
  .sequence
    [ .utf8String "com.relayrides.pushy",
      .sequence [.utf8String "app"],
      .utf8String "com.relayrides.pushy.voip",
      .sequence [.utf8String "voip"],
      .utf8String "com.relayrides.pushy.complication",
      .sequence [.utf8String "complication"] ]

/-- The decoded form of the spec's six-element structure, with every string
given by the UTF-8 bytes of its literal. -/
def specRawStructure : RawElement :=
  .seq
    [ .utf8 (utf8Bytes "com.relayrides.pushy"),
      .seq [.utf8 (utf8Bytes "app")],
      .utf8 (utf8Bytes "com.relayrides.pushy.voip"),
      .seq [.utf8 (utf8Bytes "voip")],
      .utf8 (utf8Bytes "com.relayrides.pushy.complication"),
      .seq [.utf8 (utf8Bytes "complication")] ]

/-! ## Helper lemmas about the length encoder -/

/-- Zero has no base-256 digits, whatever the fuel. -/
theorem beBytesAux_zero (fuel : Nat) : beBytesAux fuel 0 = [] := by
  cases fuel <;> simp [beBytesAux]

/-- Folding the big-endian digits back in base 256 recovers the number
(stated with a general accumulator for the induction). -/
theorem beBytesAux_foldl : ∀ fuel n acc, n ≤ fuel →
    (beBytesAux fuel n).foldl (fun a b => 256 * a + b) acc =
      acc * 256 ^ (beBytesAux fuel n).length + n := by
  intro fuel
  induction fuel with
  | zero =>
    intro n acc h
    have : n = 0 := Nat.le_zero.mp h
    subst this
    simp [beBytesAux]
  | succ fuel ih =>
    intro n acc h
    by_cases h0 : n = 0
    · subst h0; simp [beBytesAux]
    · have hlt : n / 256 < n := Nat.div_lt_self (Nat.pos_of_ne_zero h0) (by norm_num)
      have hle : n / 256 ≤ fuel := by omega
      have hrec := ih (n / 256) acc hle
      rw [beBytesAux, if_neg h0, List.foldl_append, hrec]
      simp only [List.foldl_cons, List.foldl_nil, List.length_append,
        List.length_cons, List.length_nil]
      have hdm : 256 * (n / 256) + n % 256 = n := by omega
      calc 256 * (acc * 256 ^ (beBytesAux fuel (n / 256)).length + n / 256) + n % 256
          = acc * (256 ^ (beBytesAux fuel (n / 256)).length * 256) +
              (256 * (n / 256) + n % 256) := by ring
        _ = acc * 256 ^ ((beBytesAux fuel (n / 256)).length + 1) + n := by
              rw [hdm, pow_succ]

/-- Folding the digit list of `beBytes` in base 256 recovers the number. -/
theorem beBytes_foldl (n : Nat) :
    (beBytes n).foldl (fun a b => 256 * a + b) 0 = n := by
  have h := beBytesAux_foldl n n 0 (Nat.le_refl n)
  simpa using h

/-- A positive number has a nonempty digit list with nonzero leading digit. -/
theorem beBytesAux_cons : ∀ fuel n, 0 < n → n ≤ fuel →
    ∃ d ds, beBytesAux fuel n = d :: ds ∧ 0 < d := by
  intro fuel
  induction fuel with
  | zero => intro n h1 h2; omega
  | succ fuel ih =>
    intro n h1 h2
    rw [beBytesAux, if_neg (by omega : ¬ n = 0)]
    by_cases hs : n < 256
    · have hdiv : n / 256 = 0 := Nat.div_eq_of_lt hs
      rw [hdiv, beBytesAux_zero]
      exact ⟨n % 256, [], by simp, by omega⟩
    · have hpos : 0 < n / 256 := Nat.div_pos (by omega) (by norm_num)
      have hlt : n / 256 < n := Nat.div_lt_self h1 (by norm_num)
      obtain ⟨d, ds, heq, hd⟩ := ih (n / 256) hpos (by omega)
      exact ⟨d, ds ++ [n % 256], by rw [heq]; rfl, hd⟩

/-- Below 128 the DER length field is the single-octet short form. -/
theorem derLen_short (n : Nat) (h : n < 128) : derLen n = [n] := by
  simp [derLen, h]

/-- From 128 upward the DER length field is the long definite form: an
initial octet `0x80 + k`, then `k ≥ 1` big-endian digits with a nonzero
leading digit whose base-256 value is `n`. -/
theorem derLen_long (n : Nat) (h : 128 ≤ n) :
    ∃ d ds, derLen n = (128 + (d :: ds).length) :: d :: ds ∧ 0 < d ∧
      (d :: ds).foldl (fun a b => 256 * a + b) 0 = n := by
  obtain ⟨d, ds, heq, hd⟩ := beBytesAux_cons n n (by omega) (Nat.le_refl n)
  have hbe : beBytes n = d :: ds := heq
  refine ⟨d, ds, ?_, hd, ?_⟩
  · rw [derLen, if_neg (by omega), hbe]
  · have hf := beBytes_foldl n
    rwa [hbe] at hf

/-- No DER length field begins with the octet `0x80` that would mark an
indefinite length. -/
theorem derLen_head_ne_indefinite (n : Nat) : (derLen n).head? ≠ some 128 := by
  by_cases h : n < 128
  · rw [derLen_short n h]
    simp
    omega
  · obtain ⟨d, ds, heq, _, _⟩ := derLen_long n (by omega)
    rw [heq]
    simp

/-! ## Claim theorems -/

/-- Claim C1: the printed line is the lowercase hex rendering, two
characters per byte, of the DER encoding of the outer SEQUENCE holding, in
order, UTF8String("com.relayrides.pushy"), SEQUENCE of UTF8String("app"),
UTF8String("com.relayrides.pushy.voip"), SEQUENCE of UTF8String("voip"),
UTF8String("com.relayrides.pushy.complication"), SEQUENCE of
UTF8String("complication"): every character is a lowercase hex digit and
the line's length is twice the byte count. -/
theorem output_is_hex_of_spec_der :
    hexLine = hexOfBytes (derEncode specStructure) ∧
    hexLine.data.all isLowerHexDigit = true ∧
    hexLine.length = 2 * (derEncode specStructure).length :=
  ⟨rfl, by decide, rfl⟩

/-- Claim C2 counterexample: the DER length field of
UTF8String("com.relayrides.pushy") is 20, not 21 as the claim's example
states. -/
theorem length_field_example_21_false :
    ¬ (derEncode (.utf8String "com.relayrides.pushy")).get? 1 = some 21 := by
  decide

/-- Claim C2 (amended): for every UTF8String whose UTF-8 byte count is
below 128 the DER length field equals that exact byte count; the example
values are "com.relayrides.pushy" → 20 and "app" → 3, and the other four
strings have byte counts 25, 4, 33 and 12. -/
theorem utf8string_length_fields :
    (∀ s : String, (utf8Bytes s).length < 128 →
        derEncode (.utf8String s) =
          0x0c :: (utf8Bytes s).length :: utf8Bytes s) ∧
    (utf8Bytes "com.relayrides.pushy").length = 20 ∧
    (utf8Bytes "app").length = 3 ∧
    (utf8Bytes "com.relayrides.pushy.voip").length = 25 ∧
    (utf8Bytes "voip").length = 4 ∧
    (utf8Bytes "com.relayrides.pushy.complication").length = 33 ∧
    (utf8Bytes "complication").length = 12 := by
  refine ⟨fun s h => ?_, rfl, rfl, rfl, rfl, rfl, rfl⟩
  show 0x0c :: derLen (utf8Bytes s).length ++ utf8Bytes s = _
  rw [derLen_short _ h]
  rfl

/-- Claim C2 witness: the rule applied to "app", whose byte count 3 is
below 128. -/
theorem utf8string_length_fields_witness :
    derEncode (.utf8String "app") =
      0x0c :: (utf8Bytes "app").length :: utf8Bytes "app" :=
  utf8string_length_fields.1 "app" (by decide)

/-- Claim C3: hex-decoding the printed line yields exactly the DER bytes of
`topics`, and DER-decoding those bytes reconstructs the six-element
structure with every string byte-for-byte the UTF-8 encoding of its
literal. -/
theorem output_roundtrip :
    hexDecode hexLine = some (derEncode topics) ∧
    derDecode (derEncode topics) = some specRawStructure :=
  ⟨rfl, rfl⟩

/-- Claim C4: the outer container is a flat sequence of exactly six
components, alternating between a topic-name UTF8String at positions 0, 2,
4 and a one-element label SEQUENCE at positions 1, 3, 5, forming the three
pairs in their fixed order.  The embedding is a pure value, so nothing
mutates it after construction. -/
theorem topics_flat_six_alternating :
    topics = Element.sequence topicsChildren ∧
    topicsChildren.length = 6 ∧
    topicsChildren.get? 0 = some (.utf8String "com.relayrides.pushy") ∧
    topicsChildren.get? 1 = some (.sequence [.utf8String "app"]) ∧
    topicsChildren.get? 2 = some (.utf8String "com.relayrides.pushy.voip") ∧
    topicsChildren.get? 3 = some (.sequence [.utf8String "voip"]) ∧
    topicsChildren.get? 4 =
      some (.utf8String "com.relayrides.pushy.complication") ∧
    topicsChildren.get? 5 = some (.sequence [.utf8String "complication"]) :=
  ⟨rfl, rfl, rfl, rfl, rfl, rfl, rfl, rfl⟩

/-- Claim C5: every emitted length field is a definite form (its first
octet is never the indefinite marker `0x80`), the short form is used
exactly below 128 and the long form with minimal nonzero-leading digits
from 128 upward, the outer SEQUENCE's length field equals the total byte
length of its encoded children, and every length field of this output is
the short form. -/
theorem der_lengths_definite_and_outer_correct :
    (∀ n, (derLen n).head? ≠ some 128) ∧
    (∀ n, n < 128 → derLen n = [n]) ∧
    (∀ n, 128 ≤ n → ∃ d ds, derLen n = (128 + (d :: ds).length) :: d :: ds ∧
        0 < d ∧ (d :: ds).foldl (fun a b => 256 * a + b) 0 = n) ∧
    (derEncode topics).get? 1 = some (derEncodeList topicsChildren).length ∧
    (lenFields topics).map derLen = (lenFields topics).map (fun n => [n]) :=
  ⟨derLen_head_ne_indefinite, derLen_short, derLen_long, rfl, rfl⟩

/-- Claim C5 witness: the short-form rule at 100 and the long-form rule at
300. -/
theorem der_lengths_definite_and_outer_correct_witness :
    derLen 100 = [100] ∧
    (∃ d ds, derLen 300 = (128 + (d :: ds).length) :: d :: ds ∧
      0 < d ∧ (d :: ds).foldl (fun a b => 256 * a + b) 0 = 300) :=
  ⟨der_lengths_definite_and_outer_correct.2.1 100 (by decide),
   der_lengths_definite_and_outer_correct.2.2.1 300 (by decide)⟩

/-- Claim C6: hex-decoding and then DER-decoding the printed line yields a
sequence whose first element is the UTF-8 string "com.relayrides.pushy"
and whose third element is "com.relayrides.pushy.voip". -/
theorem decoded_first_and_third_elements :
    ∃ es, (hexDecode hexLine).bind derDecode = some (RawElement.seq es) ∧
      es.get? 0 = some (.utf8 (utf8Bytes "com.relayrides.pushy")) ∧
      es.get? 2 = some (.utf8 (utf8Bytes "com.relayrides.pushy.voip")) :=
  ⟨[ .utf8 (utf8Bytes "com.relayrides.pushy"),
     .seq [.utf8 (utf8Bytes "app")],
     .utf8 (utf8Bytes "com.relayrides.pushy.voip"),
     .seq [.utf8 (utf8Bytes "voip")],
     .utf8 (utf8Bytes "com.relayrides.pushy.complication"),
     .seq [.utf8 (utf8Bytes "complication")] ], rfl, rfl, rfl⟩

/-- Claim C7: the program is deterministic — any two runs, whatever their
arguments, environment variables or standard input, write the same bytes,
and every run writes `programOutput`. -/
theorem output_deterministic :
    (∀ e₁ e₂ : RunEnv, run e₁ = run e₂) ∧
    (∀ e : RunEnv, run e = programOutput) :=
  ⟨fun _ _ => rfl, fun _ => rfl⟩

/-- Claim C8: every content length in the encoding (outer SEQUENCE
included) is at most 127, the outer SEQUENCE's content is 115 bytes, and
every length field is the single-octet short form, so no long-form length
octets appear in the output. -/
theorem all_length_fields_short :
    lenFields topics = [115, 20, 5, 3, 25, 6, 4, 33, 14, 12] ∧
    (∀ n ∈ lenFields topics, n ≤ 127) ∧
    (lenFields topics).map derLen = (lenFields topics).map (fun n => [n]) ∧
    (derEncodeList topicsChildren).length = 115 :=
  ⟨rfl, by decide, rfl, rfl⟩

/-- Claim C8 witness: the bound applied to the outer content length 115,
which is a member of the length-field list. -/
theorem all_length_fields_short_witness : (115 : Nat) ≤ 127 :=
  all_length_fields_short.2.1 115 (by decide)

/-- Claim C9: the complete DER encoding is exactly 117 bytes, so the
printed hex line has exactly 234 characters. -/
theorem encoding_is_117_bytes :
    (derEncode topics).length = 117 ∧ hexLine.length = 234 :=
  ⟨rfl, rfl⟩

/-- Claim C10: the output is the hex line followed by exactly one trailing
newline and nothing else — the hex line itself contains no newline, and the
whole output contains exactly one. -/
theorem output_single_trailing_newline :
    programOutput = hexLine ++ "\n" ∧
    programOutput.data = hexLine.data ++ ['\n'] ∧
    hexLine.data.contains '\n' = false ∧
    programOutput.data.count '\n' = 1 :=
  ⟨rfl, rfl, by decide, by decide⟩
